import Mathlib

/-!
# Verification of the pdf-lib-utils text layout engine

Shallow embedding of the text layout and measurement engine of
`@tysonjf/pdf-lib-utils` (files `src/utils/metrics.ts`,
`src/utils/draw-text-area.ts` and the single-line `drawTextLine` variant),
together with proofs of the specified properties.

Modelling conventions:
* JS numbers are modelled as rationals (`ℚ`); no floating point subtleties
  are exercised by the layout arithmetic under scrutiny.
* A `PDFFont` is an opaque handle (`Nat`); the font measurement service
  `font.widthOfTextAtSize(text, size)` is an arbitrary function parameter
  `wf : WidthFn`, matching the spec's "opaque service returning an advance
  width for a string at a size".
* Text is a `List Char`.  Colors are opaque handles (`Option Nat`), which
  models the `JSON.stringify`-based structural equality used by the code.
* The drawing sink is modelled by the list of `drawText` calls a layout
  call emits (`DrawCall`); rectangle debug overlays and graphics-state
  operators are not text draw calls and are outside the modelled output.
-/

namespace PdfLibUtils

/-- Font measurement service: `wf font text size` is
`font.widthOfTextAtSize(text, size)` (metrics.ts `partWidth`). -/
abbrev WidthFn := Nat → List Char → ℚ → ℚ

/-- `TextPart` from metrics.ts: one styled fragment of input text. -/
structure TextPart where
  text : List Char
  font : Nat
  fontSize : Option ℚ := none
  color : Option Nat := none
  opacity : Option ℚ := none
  newLine : Bool := false
deriving DecidableEq, Repr

/-- Effective font size of a part: JS `part.fontSize || 12` (the `||`
treats an explicit 0 like `undefined`). -/
def effFontSize (p : TextPart) : ℚ :=
  match p.fontSize with
  | none => 12
  | some s => if s = 0 then 12 else s

/-- metrics.ts `partWidth`: width of a part's text at its effective size. -/
def partWidth (wf : WidthFn) (p : TextPart) : ℚ :=
  wf p.font p.text (effFontSize p)

/-- JS `\s` character class (the whitespace characters relevant here). -/
def isWsChar (c : Char) : Bool :=
  c = ' ' || c = '\t' || c = '\n' || c = '\r' || c = '\x0b' || c = '\x0c'

/-- Tokenization of `text.match(/\S+|\s+/g)`: the text decomposed into
maximal runs of whitespace and maximal runs of non-whitespace characters
(`[]` for the empty string, matching the `|| []` fallback). -/
def tokenize : List Char → List (List Char)
  | [] => []
  | c :: cs =>
    match tokenize cs with
    | [] => [[c]]
    | [] :: ts => [c] :: [] :: ts
    | (d :: ds) :: ts =>
      if isWsChar c = isWsChar d then (c :: d :: ds) :: ts
      else [c] :: (d :: ds) :: ts

/-- metrics.ts `splitPartToWords`: split a part into word/whitespace tokens,
copying every style field (the JS spread `{ ...part, text: word }`). -/
def splitPartToWords (p : TextPart) : List TextPart :=
  (tokenize p.text).map (fun w => { p with text := w })

/-- Concatenated text of a list of parts. -/
def concatTexts (l : List TextPart) : List Char :=
  (l.map TextPart.text).flatten

/-! ## Line building (draw-text-area.ts, step 1: word stream with wrapping) -/

/-- The mutable loop state of draw-text-area.ts lines 117–119:
`lines`, `currentLine`, `currentLineWidth`. -/
structure WrapState where
  lines : List (List TextPart)
  cur : List TextPart
  curW : ℚ
deriving DecidableEq, Repr

/-- Flush of the accumulator on a forced break (and at loop end):
`if (currentLine.length > 0) lines.push(currentLine)`, then reset. -/
def flushLine (st : WrapState) : WrapState :=
  { lines := st.lines ++ (if st.cur = [] then [] else [st.cur]),
    cur := [], curW := 0 }

/-- Inner word loop body (draw-text-area.ts lines 130–140): wrap-flush when
`autoWrap && currentLineWidth + wordWidth > boxWidth && currentLine.length > 0`,
then push the word. -/
def addWord (wf : WidthFn) (autoWrap : Bool) (boxWidth : ℚ)
    (st : WrapState) (w : TextPart) : WrapState :=
  let ww := partWidth wf w
  if autoWrap ∧ st.curW + ww > boxWidth ∧ st.cur ≠ [] then
    { lines := st.lines ++ [st.cur], cur := [w], curW := ww }
  else
    { st with cur := st.cur ++ [w], curW := st.curW + ww }

/-- Outer loop body (draw-text-area.ts lines 120–141): forced-break flush
when `part.newLine`, then feed the part's words through `addWord`. -/
def stepPart (wf : WidthFn) (autoWrap : Bool) (boxWidth : ℚ)
    (st : WrapState) (p : TextPart) : WrapState :=
  (splitPartToWords p).foldl (addWord wf autoWrap boxWidth)
    (if p.newLine then flushLine st else st)

/-- The line-building phase of `drawTextArea`
(draw-text-area.ts lines 116–142), including the final flush. -/
def buildLines (wf : WidthFn) (autoWrap : Bool) (boxWidth : ℚ)
    (parts : List TextPart) : List (List TextPart) :=
  (flushLine (parts.foldl (stepPart wf autoWrap boxWidth) ⟨[], [], 0⟩)).lines

/-- All fragments held by a wrap state, in order. -/
def WrapState.flat (st : WrapState) : List TextPart :=
  st.lines.flatten ++ st.cur

/-! ## Style grouping, heights, overflow classification, draw emission -/

/-- The style comparison of `groupPartsByStyle`: font identity, `fontSize`,
structural color equality (`JSON.stringify`), and `opacity`. -/
def sameStyle (a b : TextPart) : Prop :=
  a.font = b.font ∧ a.fontSize = b.fontSize ∧ a.color = b.color ∧ a.opacity = b.opacity

instance (a b : TextPart) : Decidable (sameStyle a b) := by
  unfold sameStyle; infer_instance

/-- Inner loop of `groupPartsByStyle`, carrying the `current` run. -/
def groupAux (cur : TextPart) : List TextPart → List TextPart
  | [] => [cur]
  | p :: ps =>
    if sameStyle p cur then groupAux { cur with text := cur.text ++ p.text } ps
    else cur :: groupAux p ps

/-- draw-text-area.ts / drawTextLine `groupPartsByStyle`: merge consecutive
same-styled parts by concatenating their text. -/
def groupPartsByStyle : List TextPart → List TextPart
  | [] => []
  | p :: ps => groupAux p ps

/-- JS `Math.max(...)` over a list.  The empty case returns `0` in place of
`-Infinity` (unrepresentable in `ℚ`); the layout code only evaluates it on
lines produced by `buildLines`, which are never empty. -/
def listMax : List ℚ → ℚ
  | [] => 0
  | a :: as => as.foldl max a

/-- Height of a line (draw-text-area.ts lines 145–147 and 210–212):
`Math.max(...line.map(p => (p.fontSize || 12) * lineHeight))`. -/
def lineHeightOf (mult : ℚ) (line : List TextPart) : ℚ :=
  listMax (line.map (fun p => effFontSize p * mult))

/-- The `lastLineIdx` scan of draw-text-area.ts lines 148–155: index of the
first line whose cumulative height strictly exceeds the box height
(`none` encodes the sentinel `-1`). -/
def firstExceedIdxAux (boxH : ℚ) : List ℚ → ℚ → Nat → Option Nat
  | [], _, _ => none
  | h :: hs, acc, i =>
    if acc + h > boxH then some i else firstExceedIdxAux boxH hs (acc + h) (i + 1)

def firstExceedIdx (heights : List ℚ) (boxH : ℚ) : Option Nat :=
  firstExceedIdxAux boxH heights 0 0

/-- One emitted `page.drawText` call (the drawing sink). -/
structure DrawCall where
  text : List Char
  x : ℚ
  y : ℚ
  font : Nat
  size : ℚ
  color : Nat
  opacity : ℚ
deriving DecidableEq, Repr

/-- Per-part draw loop of `drawTextArea` (draw-text-area.ts lines 237–248):
emit each grouped part at the advancing x cursor. -/
def emitAreaParts (wf : WidthFn) (defC : Nat) (defO : ℚ) (mfs yC : ℚ) :
    List TextPart → ℚ → List DrawCall
  | [], _ => []
  | p :: ps, xC =>
    let pfs := effFontSize p
    { text := p.text, x := xC, y := yC - (mfs - pfs) - pfs, font := p.font,
      size := pfs, color := p.color.getD defC, opacity := p.opacity.getD defO }
      :: emitAreaParts wf defC defO mfs yC ps (xC + partWidth wf p)

inductive HAlign | left | center | right
deriving DecidableEq, Repr

inductive VAlign | top | middle | bottom
deriving DecidableEq, Repr

/-- The per-line draw loop of `drawTextArea` (draw-text-area.ts lines
222–250): group by style, align horizontally, emit, step the y cursor
down by the line's height. -/
def emitArea (wf : WidthFn) (defC : Nat) (defO : ℚ) (boxLeft boxWidth : ℚ)
    (align : HAlign) (mult : ℚ) : List (List TextPart) → ℚ → List DrawCall
  | [], _ => []
  | line :: rest, yC =>
    let grouped := groupPartsByStyle line
    let lw := (grouped.map (partWidth wf)).sum
    let x0 := match align with
      | .left => boxLeft
      | .center => boxLeft + (boxWidth - lw) / 2
      | .right => boxLeft + (boxWidth - lw)
    let mfs := listMax (grouped.map effFontSize)
    emitAreaParts wf defC defO mfs yC grouped x0
      ++ emitArea wf defC defO boxLeft boxWidth align mult rest
          (yC - lineHeightOf mult line)

/-- The fixed-precedence overflow message (identical in `drawTextLine` and
`drawTextArea`). -/
def overflowMessage (overflowX overflowY : Bool) : String :=
  if overflowX && overflowY then "Text overflows both X (width) and Y (height)"
  else if overflowX then "Text overflows X (width)"
  else if overflowY then "Text overflows Y (height)"
  else "Text fits within the box"

/-! ## drawTextArea (draw-text-area.ts) -/

/-- Parameters of `drawTextArea` with the destructuring defaults of
draw-text-area.ts lines 90–107.  `color` is the opaque handle of the
default `cmyk(0,0,0,1)`; `hasOnOverflow` models whether the optional
`onOverflow` callback was supplied. -/
structure DrawTextAreaParams where
  parts : List TextPart
  x : ℚ
  y : ℚ
  width : ℚ
  height : ℚ
  align : HAlign := .left
  verticalAlign : VAlign := .top
  autoWrap : Bool := true
  lineHeight : ℚ := 6/5
  color : Nat := 0
  opacity : ℚ := 1
  clipOverflow : Bool := false
  hideOnOverflow : Bool := false
  hasOnOverflow : Bool := false
deriving DecidableEq, Repr

/-- Observable outcome of one `drawTextArea` call: the intermediate layout
data, the overflow report fields, whether `onOverflow` ran, and the emitted
text draw calls. -/
structure AreaResult where
  lines : List (List TextPart)
  renderLines : List (List TextPart)
  overflowedLines : List (List TextPart)
  overflowedLineIndices : List Nat
  totalLines : Nat
  renderedLines : Nat
  overflowX : Bool
  overflowY : Bool
  overflowed : Bool
  message : String
  callbackInvoked : Bool
  renderTextHeight : ℚ
  startY : ℚ
  drawCalls : List DrawCall
deriving DecidableEq, Repr

/-- `drawTextArea` (draw-text-area.ts lines 89–266) as a pure function from
the page height, the parameters and the measurement service to its
observable outcome. -/
def drawTextArea (wf : WidthFn) (pageHeight : ℚ) (P : DrawTextAreaParams) :
    AreaResult :=
  let boxTop := pageHeight - P.y
  let boxLeft := P.x
  let lines := buildLines wf P.autoWrap P.width P.parts
  let lineHeights := lines.map (lineHeightOf P.lineHeight)
  let lastLineIdx := firstExceedIdx lineHeights P.height
  let renderLines := match lastLineIdx, P.clipOverflow with
    | some k, true => lines.take k
    | _, _ => lines
  let overflowedLines := match lastLineIdx, P.clipOverflow with
    | some k, true => lines.drop k
    | _, _ => []
  let overflowedLineIndices := match lastLineIdx, P.clipOverflow with
    | some k, true => List.range' k (lines.length - k)
    | _, _ => []
  let overflowY := lastLineIdx.isSome
  let overflowX :=
    renderLines.any (fun line => decide ((line.map (partWidth wf)).sum > P.width))
  let overflowed := overflowX || overflowY
  let message := overflowMessage overflowX overflowY
  let callbackInvoked := P.hasOnOverflow && overflowed
  let renderLineHeights := renderLines.map (lineHeightOf P.lineHeight)
  let renderTextHeight := renderLineHeights.sum
  let startY := match P.verticalAlign with
    | .top => boxTop
    | .middle => boxTop - (P.height - renderTextHeight) / 2
    | .bottom => boxTop - (P.height - renderTextHeight)
  let drawCalls :=
    if P.hideOnOverflow && overflowed then []
    else emitArea wf P.color P.opacity boxLeft P.width P.align P.lineHeight
      renderLines startY
  { lines := lines, renderLines := renderLines,
    overflowedLines := overflowedLines,
    overflowedLineIndices := overflowedLineIndices,
    totalLines := lines.length, renderedLines := renderLines.length,
    overflowX := overflowX, overflowY := overflowY, overflowed := overflowed,
    message := message, callbackInvoked := callbackInvoked,
    renderTextHeight := renderTextHeight, startY := startY,
    drawCalls := drawCalls }

/-! ## drawTextLine (the single-line variant) -/

inductive LineAlign | left | center | right | justifyParts | justifyWords
deriving DecidableEq, Repr

/-- Parameters of `drawTextLine` with its destructuring defaults. -/
structure DrawTextLineParams where
  parts : List TextPart
  x : ℚ
  y : ℚ
  width : ℚ
  height : ℚ
  align : LineAlign := .left
  verticalAlign : VAlign := .top
  color : Nat := 0
  opacity : ℚ := 1
  hideOnOverflow : Bool := false
  hasOnOverflow : Bool := false
deriving DecidableEq, Repr

/-- Observable outcome of one `drawTextLine` call. -/
structure LineResult where
  lineParts : List TextPart
  lineWidth : ℚ
  maxFontSize : ℚ
  lineHeight : ℚ
  overflowX : Bool
  overflowY : Bool
  overflowed : Bool
  message : String
  callbackInvoked : Bool
  gapWidth : ℚ
  yText : ℚ
  drawCalls : List DrawCall
deriving DecidableEq, Repr

/-- Draw loop of `drawTextLine` (lines 414–432): emit each part, advancing
the cursor by the part width, plus (in a justify mode, while not at the
last part) the computed gap width. -/
def emitLineParts (wf : WidthFn) (defC : Nat) (defO : ℚ) (mfs yText gapW : ℚ)
    (justify : Bool) : List TextPart → ℚ → List DrawCall
  | [], _ => []
  | p :: ps, xC =>
    let pfs := effFontSize p
    { text := p.text, x := xC, y := yText - (mfs - pfs) - pfs, font := p.font,
      size := pfs, color := p.color.getD defC, opacity := p.opacity.getD defO }
      :: emitLineParts wf defC defO mfs yText gapW justify ps
          (xC + partWidth wf p + (if justify && !ps.isEmpty then gapW else 0))

/-- `drawTextLine` (the richest variant, lines 301–448) as a pure function.
`gapWidth` is the justification gap computed behind the
`lineParts.length > 1` guard (it stays `0` otherwise). -/
def drawTextLine (wf : WidthFn) (pageHeight : ℚ) (P : DrawTextLineParams) :
    LineResult :=
  let boxTop := pageHeight - P.y
  let boxLeft := P.x
  let lineParts :=
    if P.align = LineAlign.justifyWords then P.parts.flatMap splitPartToWords
    else groupPartsByStyle P.parts
  let partWidths := lineParts.map (partWidth wf)
  let lineWidth := partWidths.sum
  let maxFontSize := listMax (lineParts.map effFontSize)
  let lineHeight := maxFontSize
  let overflowX := decide (lineWidth > P.width)
  let overflowY := decide (lineHeight > P.height)
  let overflowed := overflowX || overflowY
  let message := overflowMessage overflowX overflowY
  let callbackInvoked := P.hasOnOverflow
  let isJustify := P.align = LineAlign.justifyParts ∨ P.align = LineAlign.justifyWords
  let xStart := match P.align with
    | .center => boxLeft + (P.width - lineWidth) / 2
    | .right => boxLeft + (P.width - lineWidth)
    | _ => boxLeft
  let gapWidth :=
    if isJustify ∧ 1 < lineParts.length then
      (P.width - lineWidth) / ((lineParts.length : ℚ) - 1)
    else 0
  let yText := match P.verticalAlign with
    | .top => boxTop
    | .middle => boxTop - (P.height - lineHeight) / 2
    | .bottom => boxTop - (P.height - lineHeight)
  let drawCalls :=
    if P.hideOnOverflow && overflowed then []
    else emitLineParts wf P.color P.opacity maxFontSize yText gapWidth
      (decide isJustify) lineParts xStart
  { lineParts := lineParts, lineWidth := lineWidth, maxFontSize := maxFontSize,
    lineHeight := lineHeight, overflowX := overflowX, overflowY := overflowY,
    overflowed := overflowed, message := message,
    callbackInvoked := callbackInvoked, gapWidth := gapWidth, yText := yText,
    drawCalls := drawCalls }

/-! ## Reference definition for the no-wrap claim

`noWrapLines` states, in the spec's own terms, what the produced lines must
be when wrapping is disabled: the input fragments partitioned exactly at
the forced-break boundaries (a `newLine` fragment starts a new group), each
group replaced by its word-fragments, groups with no word-fragments
dropped. -/

/-- Partition a fragment list into the runs delimited by forced-break
fragments; each fragment flagged `newLine` starts a new run. -/
def forcedGroupsAux (g : List TextPart) : List TextPart → List (List TextPart)
  | [] => [g]
  | p :: ps =>
    if p.newLine then g :: forcedGroupsAux [p] ps
    else forcedGroupsAux (g ++ [p]) ps

/-- The lines the spec prescribes for disabled wrapping: the forced-break
partition of the input, word-split, with empty lines dropped.  This is
independent of the box width and of the measurement service. -/
def noWrapLines (parts : List TextPart) : List (List TextPart) :=
  ((forcedGroupsAux [] parts).map (fun g => g.flatMap splitPartToWords)).filter
    (fun l => !l.isEmpty)

/-! ## Concrete instances used by the per-claim scenarios and witnesses -/

/-- A measurement service giving every string width 1. -/
def unitWidth : WidthFn := fun _ _ _ => 1

/-- A measurement service giving every string width 250. -/
def bigWidth : WidthFn := fun _ _ _ => 250

/-- A measurement service measuring one unit per character. -/
def charWidth : WidthFn := fun _ t _ => (t.length : ℚ)

/-- A forced-break part of font size 20 (one per line for the clip scenario). -/
def linePart (t : List Char) : TextPart :=
  { text := t, font := 0, fontSize := some 20, newLine := true }

/-- Clip scenario of C1: 5 lines, each 20 units tall, in a 90-unit box. -/
def c1Params : DrawTextAreaParams :=
  { parts := [linePart ['a'], linePart ['b'], linePart ['c'], linePart ['d'],
      linePart ['e']],
    x := 0, y := 0, width := 100, height := 90, lineHeight := 1,
    clipOverflow := true }

/-- A styled fragment exercising the round-trip claim. -/
def c2Part : TextPart :=
  { text := ['h', 'i', ' ', ' ', 'y', 'o'], font := 3, fontSize := some 9,
    color := some 5, opacity := some (1/2) }

/-- The first token `splitPartToWords` produces from `c2Part`. -/
def c2Tok : TextPart := { c2Part with text := ['h', 'i'] }

/-- Hide scenario of C4: the clip scenario box with `hideOnOverflow`. -/
def c4Params : DrawTextAreaParams :=
  { parts := [linePart ['a'], linePart ['b'], linePart ['c'], linePart ['d'],
      linePart ['e']],
    x := 0, y := 0, width := 100, height := 90, lineHeight := 1,
    hideOnOverflow := true }

/-- A fitting box for C4 (same content, ample height). -/
def c4FitParams : DrawTextAreaParams :=
  { parts := [linePart ['a'], linePart ['b']],
    x := 0, y := 0, width := 100, height := 90, lineHeight := 1,
    hideOnOverflow := true }

/-- Overflow-precedence scenario of C5: lineWidth 250 in a 200×30 box with
a 20-unit font. -/
def c5Params : DrawTextLineParams :=
  { parts := [{ text := ['h', 'i'], font := 0, fontSize := some 20 }],
    x := 0, y := 0, width := 200, height := 30 }

/-- Vertical-alignment scenario of C6: the clip scenario, middle-aligned. -/
def c6Params : DrawTextAreaParams :=
  { parts := [linePart ['a'], linePart ['b'], linePart ['c'], linePart ['d'],
      linePart ['e']],
    x := 0, y := 0, width := 100, height := 90, lineHeight := 1,
    verticalAlign := .middle, clipOverflow := true }

/-- No-wrap scenario of C7: a two-fragment text with one forced break in a
box far too narrow, wrapping disabled. -/
def c7Params : DrawTextAreaParams :=
  { parts := [{ text := ['a', 'a', ' ', 'b', 'b'], font := 0 },
      { text := ['c', 'c'], font := 0, newLine := true }],
    x := 0, y := 0, width := 1, height := 50, autoWrap := false }

/-- Justify-fallback scenario of C8: a single part under `justifyParts`. -/
def c8Params : DrawTextLineParams :=
  { parts := [{ text := ['h', 'i'], font := 0, fontSize := some 10 }],
    x := 7, y := 0, width := 200, height := 30, align := .justifyParts }

/-- C9 counterexample configuration: one non-empty fragment, zero box width
and height, clip policy active. -/
def c9ClipParams : DrawTextAreaParams :=
  { parts := [{ text := ['a'], font := 0, fontSize := some 12 }],
    x := 0, y := 0, width := 0, height := 0, clipOverflow := true }

/-- C9: the empty fragment list. -/
def c9EmptyParams : DrawTextAreaParams :=
  { parts := [], x := 0, y := 0, width := 50, height := 50 }

/-- C9: one non-empty fragment in a zero-width box, report policy. -/
def c9ReportParams : DrawTextAreaParams :=
  { parts := [{ text := ['a'], font := 0, fontSize := some 12 }],
    x := 0, y := 0, width := 0, height := 0 }

/-- C10: a fitting single-line call with the callback supplied. -/
def c10LineParams : DrawTextLineParams :=
  { parts := [{ text := ['h', 'i'], font := 0, fontSize := some 10 }],
    x := 0, y := 0, width := 50, height := 30, hasOnOverflow := true }

/-- C10: a fitting area call with the callback supplied. -/
def c10AreaParams : DrawTextAreaParams :=
  { parts := [{ text := ['h', 'i'], font := 0, fontSize := some 10 }],
    x := 0, y := 0, width := 50, height := 30, lineHeight := 1,
    hasOnOverflow := true }

end PdfLibUtils

/- `Rat.add`, `Rat.mul`, `Rat.sub` and `Rat.inv` are `@[irreducible]` in the
library, which blocks `decide` on concrete layout computations; their
reducibility is restored locally so scenario witnesses can evaluate. -/
attribute [local semireducible] Rat.add Rat.mul Rat.sub Rat.inv

namespace PdfLibUtils

/-! ## Tokenizer lemmas -/

theorem tokenize_flatten (s : List Char) : (tokenize s).flatten = s := by
  induction s with
  | nil => rfl
  | cons c cs ih =>
    simp only [tokenize]
    rcases h : tokenize cs with _ | ⟨_ | ⟨d, ds⟩, ts⟩ <;>
      rw [h] at ih <;> simp_all [List.flatten]
    split <;> simp_all [List.flatten]

theorem tokenize_ne_nil {s : List Char} (h : s ≠ []) : tokenize s ≠ [] := by
  cases s with
  | nil => exact absurd rfl h
  | cons c cs =>
    simp only [tokenize]
    rcases tokenize cs with _ | ⟨_ | _, _⟩ <;> simp
    split <;> simp

theorem concatTexts_append (a b : List TextPart) :
    concatTexts (a ++ b) = concatTexts a ++ concatTexts b := by
  simp [concatTexts]

theorem concatTexts_splitPartToWords (p : TextPart) :
    concatTexts (splitPartToWords p) = p.text := by
  simp only [concatTexts, splitPartToWords, List.map_map]
  have : (TextPart.text ∘ fun w => { p with text := w }) = id := rfl
  rw [this, List.map_id, tokenize_flatten]

theorem concatTexts_flatMap_split (l : List TextPart) :
    concatTexts (l.flatMap splitPartToWords) = concatTexts l := by
  induction l with
  | nil => rfl
  | cons p ps ih =>
    rw [List.flatMap_cons, concatTexts_append, ih, concatTexts_splitPartToWords]
    rfl

/-! ## Line-builder lemmas -/

theorem flat_flushLine (st : WrapState) : (flushLine st).flat = st.flat := by
  unfold flushLine WrapState.flat
  split <;> simp_all

theorem flat_addWord (wf : WidthFn) (aw : Bool) (bw : ℚ)
    (st : WrapState) (w : TextPart) :
    (addWord wf aw bw st w).flat = st.flat ++ [w] := by
  simp only [addWord, WrapState.flat]
  split <;> simp

theorem flat_foldl_addWord (wf : WidthFn) (aw : Bool) (bw : ℚ)
    (ws : List TextPart) (st : WrapState) :
    (ws.foldl (addWord wf aw bw) st).flat = st.flat ++ ws := by
  induction ws generalizing st with
  | nil => simp
  | cons w ws ih => simp [List.foldl_cons, ih, flat_addWord]

theorem flat_stepPart (wf : WidthFn) (aw : Bool) (bw : ℚ)
    (st : WrapState) (p : TextPart) :
    (stepPart wf aw bw st p).flat = st.flat ++ splitPartToWords p := by
  unfold stepPart
  rw [flat_foldl_addWord]
  by_cases h : p.newLine <;> simp [h, flat_flushLine]

/-- Master no-loss lemma: flattening the built lines yields exactly the
word-split stream of the input parts, for every wrap configuration. -/
theorem buildLines_flatten (wf : WidthFn) (aw : Bool) (bw : ℚ)
    (parts : List TextPart) :
    (buildLines wf aw bw parts).flatten = parts.flatMap splitPartToWords := by
  have key : ∀ (ps : List TextPart) (st : WrapState),
      (ps.foldl (stepPart wf aw bw) st).flat = st.flat ++ ps.flatMap splitPartToWords := by
    intro ps
    induction ps with
    | nil => simp
    | cons p ps ih =>
      intro st
      simp [List.foldl_cons, ih, flat_stepPart]
  have h1 : (flushLine (parts.foldl (stepPart wf aw bw) ⟨[], [], 0⟩)).flat
      = parts.flatMap splitPartToWords := by
    rw [flat_flushLine, key]
    simp [WrapState.flat]
  have h2 : (flushLine (parts.foldl (stepPart wf aw bw) ⟨[], [], 0⟩)).flat
      = (buildLines wf aw bw parts).flatten ++ [] := by
    simp [WrapState.flat, buildLines, flushLine]
  rw [← h1, h2, List.append_nil]

/-! ## Characterization of the cumulative-height cut point -/

theorem firstExceedIdxAux_eq_some (H : ℚ) (hs : List ℚ) :
    ∀ (acc : ℚ) (i k : Nat), k < hs.length →
      acc + (hs.take (k + 1)).sum > H →
      (∀ j < k, acc + (hs.take (j + 1)).sum ≤ H) →
      firstExceedIdxAux H hs acc i = some (i + k) := by
  induction hs with
  | nil => intro acc i k hk; simp at hk
  | cons h t ih =>
    intro acc i k hk hgt hle
    cases k with
    | zero =>
      simp only [List.take_succ_cons, List.take_zero, List.sum_cons,
        List.sum_nil, add_zero] at hgt
      simp [firstExceedIdxAux, hgt]
    | succ k =>
      have h0 : ¬ (acc + h > H) := by
        have := hle 0 (Nat.succ_pos k)
        simp only [List.take_succ_cons, List.take_zero, List.sum_cons,
          List.sum_nil, add_zero] at this
        exact not_lt.mpr this
      have step := ih (acc + h) (i + 1) k (by simpa using hk)
        (by
          simp only [List.take_succ_cons, List.sum_cons] at hgt
          linarith)
        (by
          intro j hj
          have := hle (j + 1) (Nat.succ_lt_succ hj)
          simp only [List.take_succ_cons, List.sum_cons] at this
          linarith)
      simp only [firstExceedIdxAux, h0, if_false]
      rw [step]
      congr 1
      omega

theorem firstExceedIdxAux_eq_none (H : ℚ) (hs : List ℚ) :
    ∀ (acc : ℚ) (i : Nat),
      (∀ j < hs.length, acc + (hs.take (j + 1)).sum ≤ H) →
      firstExceedIdxAux H hs acc i = none := by
  induction hs with
  | nil => intro acc i _; rfl
  | cons h t ih =>
    intro acc i hle
    have h0 : ¬ (acc + h > H) := by
      have := hle 0 (Nat.succ_pos _)
      simp only [List.take_succ_cons, List.take_zero, List.sum_cons,
        List.sum_nil, add_zero] at this
      exact not_lt.mpr this
    simp only [firstExceedIdxAux, h0, if_false]
    refine ih (acc + h) (i + 1) ?_
    intro j hj
    have := hle (j + 1) (Nat.succ_lt_succ hj)
    simp only [List.take_succ_cons, List.sum_cons] at this
    linarith

/-- `firstExceedIdx` returns the (unique) index at which the cumulative sum
first strictly exceeds the bound. -/
theorem firstExceedIdx_eq_some (hs : List ℚ) (H : ℚ) (k : Nat)
    (hk : k < hs.length) (hgt : (hs.take (k + 1)).sum > H)
    (hle : ∀ j < k, (hs.take (j + 1)).sum ≤ H) :
    firstExceedIdx hs H = some k := by
  have := firstExceedIdxAux_eq_some H hs 0 0 k hk (by simpa using hgt)
    (by simpa using hle)
  simpa using this

/-- `firstExceedIdx` is `none` when no cumulative sum exceeds the bound. -/
theorem firstExceedIdx_eq_none (hs : List ℚ) (H : ℚ)
    (hle : ∀ j < hs.length, (hs.take (j + 1)).sum ≤ H) :
    firstExceedIdx hs H = none := by
  exact firstExceedIdxAux_eq_none H hs 0 0 (by simpa using hle)

/-! ## The no-wrap refinement -/

theorem addWord_noWrap (wf : WidthFn) (bw : ℚ) (st : WrapState) (w : TextPart) :
    addWord wf false bw st w
      = { st with cur := st.cur ++ [w], curW := st.curW + partWidth wf w } := by
  simp [addWord]

theorem foldl_addWord_noWrap (wf : WidthFn) (bw : ℚ) (ws : List TextPart)
    (st : WrapState) :
    ws.foldl (addWord wf false bw) st
      = { st with
          cur := st.cur ++ ws,
          curW := st.curW + (ws.map (partWidth wf)).sum } := by
  induction ws generalizing st with
  | nil => simp
  | cons w ws ih =>
    rw [List.foldl_cons, addWord_noWrap, ih]
    simp [add_assoc]

theorem noWrap_foldl (wf : WidthFn) (bw : ℚ) (parts : List TextPart) :
    ∀ (st : WrapState) (g : List TextPart),
      st.cur = g.flatMap splitPartToWords →
      (flushLine (parts.foldl (stepPart wf false bw) st)).lines
        = st.lines
          ++ ((forcedGroupsAux g parts).map
              (fun h => h.flatMap splitPartToWords)).filter
            (fun l => !l.isEmpty) := by
  induction parts with
  | nil =>
    intro st g hcur
    simp only [List.foldl_nil, flushLine, forcedGroupsAux, List.map_cons,
      List.map_nil, List.filter]
    rcases hc : st.cur with _ | ⟨q, qs⟩ <;> rw [hc] at hcur <;>
      simp [← hcur, hc]
  | cons p ps ih =>
    intro st g hcur
    rw [List.foldl_cons]
    by_cases hn : p.newLine
    · have hstep : stepPart wf false bw st p
          = { lines := st.lines ++ (if st.cur = [] then [] else [st.cur]),
              cur := splitPartToWords p,
              curW := 0 + ((splitPartToWords p).map (partWidth wf)).sum } := by
        unfold stepPart flushLine
        rw [if_pos hn, foldl_addWord_noWrap]
        simp
      rw [hstep, ih _ [p] (by simp)]
      simp only [forcedGroupsAux, if_pos hn, List.map_cons, List.filter]
      rcases hc : st.cur with _ | ⟨q, qs⟩ <;> rw [hc] at hcur <;>
        simp [← hcur, hc, List.append_assoc]
    · have hstep : stepPart wf false bw st p
          = { lines := st.lines, cur := st.cur ++ splitPartToWords p,
              curW := st.curW + ((splitPartToWords p).map (partWidth wf)).sum } := by
        unfold stepPart
        rw [if_neg hn, foldl_addWord_noWrap]
      rw [hstep, ih _ (g ++ [p]) (by simp [hcur])]
      simp [forcedGroupsAux, hn]

/-- With wrapping disabled the built lines are exactly the spec's
forced-break partition, word-split, with empty lines dropped. -/
theorem buildLines_noWrap (wf : WidthFn) (bw : ℚ) (parts : List TextPart) :
    buildLines wf false bw parts = noWrapLines parts := by
  unfold buildLines noWrapLines
  have := noWrap_foldl wf bw parts ⟨[], [], 0⟩ [] (by simp)
  simpa using this

/-- If the concatenated text of some parts is non-empty, one of the parts
has non-empty text. -/
theorem exists_text_ne_nil_of_concat {l : List TextPart}
    (h : concatTexts l ≠ []) : ∃ w ∈ l, w.text ≠ [] := by
  induction l with
  | nil => exact absurd rfl h
  | cons w ws ih =>
    by_cases hw : w.text = []
    · have h' : concatTexts ws ≠ [] := by
        intro hc
        apply h
        simp [concatTexts, hw]
        simpa [concatTexts] using hc
      obtain ⟨v, hv, hvt⟩ := ih h'
      exact ⟨v, List.mem_cons_of_mem _ hv, hvt⟩
    · exact ⟨w, List.mem_cons_self _ _, hw⟩

/-! ## Claims -/

/-- Claim C2: for every fragment (any text, including empty and
whitespace-only), concatenating in order the texts of the fragments
returned by `splitPartToWords` reproduces the fragment's text exactly, and
every returned token carries the fragment's font, fontSize, color and
opacity. -/
theorem splitPartToWords_roundtrip (p : TextPart) :
    concatTexts (splitPartToWords p) = p.text ∧
    ∀ w ∈ splitPartToWords p, w.font = p.font ∧ w.fontSize = p.fontSize ∧
      w.color = p.color ∧ w.opacity = p.opacity := by
  refine ⟨concatTexts_splitPartToWords p, ?_⟩
  intro w hw
  simp only [splitPartToWords, List.mem_map] at hw
  obtain ⟨t, -, rfl⟩ := hw
  exact ⟨rfl, rfl, rfl, rfl⟩

/-- Witness for C2 at the concrete fragment `c2Part` and its first token. -/
theorem splitPartToWords_roundtrip_witness :
    concatTexts (splitPartToWords c2Part) = c2Part.text ∧
    (c2Tok.font = c2Part.font ∧ c2Tok.fontSize = c2Part.fontSize ∧
      c2Tok.color = c2Part.color ∧ c2Tok.opacity = c2Part.opacity) :=
  ⟨(splitPartToWords_roundtrip c2Part).1,
   (splitPartToWords_roundtrip c2Part).2 c2Tok (by decide)⟩

/-- Claim C3: for every fragment list and every configuration (wrap flag,
forced breaks, box width, overflow policy), the text of all produced lines
— clipped and overflowed ones included, since render and overflowed lines
partition the full line list — concatenates to the text of the input. -/
theorem drawTextArea_no_text_loss (wf : WidthFn) (ph : ℚ)
    (P : DrawTextAreaParams) :
    concatTexts (drawTextArea wf ph P).lines.flatten = concatTexts P.parts ∧
    (drawTextArea wf ph P).renderLines ++ (drawTextArea wf ph P).overflowedLines
      = (drawTextArea wf ph P).lines := by
  constructor
  · show concatTexts (buildLines wf P.autoWrap P.width P.parts).flatten = _
    rw [buildLines_flatten, concatTexts_flatMap_split]
  · rcases hk : firstExceedIdx
        ((buildLines wf P.autoWrap P.width P.parts).map (lineHeightOf P.lineHeight))
        P.height with _ | k <;>
      rcases hc : P.clipOverflow <;>
      simp [drawTextArea, hk, hc, List.take_append_drop]

/-- Claim C7: with wrapping disabled, the produced lines are exactly the
input partitioned at the forced-break boundaries (each group word-split,
empty groups dropped) — so the box width plays no role and no fragment is
split across lines, as `noWrapLines` mentions neither the width nor the
measurement service. -/
theorem drawTextArea_noWrap_partition (wf : WidthFn) (ph : ℚ)
    (P : DrawTextAreaParams) (hw : P.autoWrap = false) :
    (drawTextArea wf ph P).lines = noWrapLines P.parts := by
  show buildLines wf P.autoWrap P.width P.parts = _
  rw [hw, buildLines_noWrap]

/-- Witness for C7: a 1-unit-wide box does not break the unwrapped lines. -/
theorem drawTextArea_noWrap_partition_witness :
    (drawTextArea charWidth 100 c7Params).lines
      = [[{ text := ['a', 'a'], font := 0 }, { text := [' '], font := 0 },
          { text := ['b', 'b'], font := 0 }],
         [{ text := ['c', 'c'], font := 0, newLine := true }]] :=
  (drawTextArea_noWrap_partition charWidth 100 c7Params rfl).trans (by decide)

/-- Claim C1: with `clipOverflow`, when `k` is the first index whose
cumulative line height strictly exceeds the box height, exactly the lines
before `k` render (`renderedLines = k`) and the overflowed indices are
`[k, …, totalLines−1]`; when no such index exists everything renders and
the overflowed index list is empty. -/
theorem drawTextArea_clip_policy (wf : WidthFn) (ph : ℚ)
    (P : DrawTextAreaParams) (hclip : P.clipOverflow = true) :
    (∀ k, k < (drawTextArea wf ph P).totalLines →
      (((drawTextArea wf ph P).lines.map (lineHeightOf P.lineHeight)).take
          (k + 1)).sum > P.height →
      (∀ j < k, (((drawTextArea wf ph P).lines.map
          (lineHeightOf P.lineHeight)).take (j + 1)).sum ≤ P.height) →
      (drawTextArea wf ph P).renderLines = (drawTextArea wf ph P).lines.take k ∧
      (drawTextArea wf ph P).renderedLines = k ∧
      (drawTextArea wf ph P).overflowedLineIndices
        = List.range' k ((drawTextArea wf ph P).totalLines - k)) ∧
    ((∀ j < (drawTextArea wf ph P).totalLines,
        (((drawTextArea wf ph P).lines.map
            (lineHeightOf P.lineHeight)).take (j + 1)).sum ≤ P.height) →
      (drawTextArea wf ph P).renderLines = (drawTextArea wf ph P).lines ∧
      (drawTextArea wf ph P).overflowedLineIndices = []) := by
  have hlines : (drawTextArea wf ph P).lines
      = buildLines wf P.autoWrap P.width P.parts := rfl
  have htot : (drawTextArea wf ph P).totalLines
      = (buildLines wf P.autoWrap P.width P.parts).length := rfl
  have hrl : (drawTextArea wf ph P).renderLines
      = (match firstExceedIdx ((buildLines wf P.autoWrap P.width P.parts).map
            (lineHeightOf P.lineHeight)) P.height, P.clipOverflow with
         | some k, true => (buildLines wf P.autoWrap P.width P.parts).take k
         | _, _ => buildLines wf P.autoWrap P.width P.parts) := rfl
  have hidx : (drawTextArea wf ph P).overflowedLineIndices
      = (match firstExceedIdx ((buildLines wf P.autoWrap P.width P.parts).map
            (lineHeightOf P.lineHeight)) P.height, P.clipOverflow with
         | some k, true =>
            List.range' k ((buildLines wf P.autoWrap P.width P.parts).length - k)
         | _, _ => []) := rfl
  constructor
  · intro k hk hgt hle
    have hk' : k < ((buildLines wf P.autoWrap P.width P.parts).map
        (lineHeightOf P.lineHeight)).length := by
      rw [List.length_map]
      rw [htot] at hk
      exact hk
    have hfe : firstExceedIdx ((buildLines wf P.autoWrap P.width P.parts).map
        (lineHeightOf P.lineHeight)) P.height = some k := by
      refine firstExceedIdx_eq_some _ _ k hk' ?_ ?_
      · rw [hlines] at hgt; exact hgt
      · intro j hj
        have := hle j hj
        rw [hlines] at this
        exact this
    rw [hfe, hclip] at hrl hidx
    refine ⟨?_, ?_, ?_⟩
    · rw [hrl, hlines]
    · show (drawTextArea wf ph P).renderLines.length = k
      rw [hrl, List.length_take]
      rw [htot] at hk
      exact Nat.min_eq_left (Nat.le_of_lt hk)
    · rw [hidx, htot]
  · intro hle
    have hfe : firstExceedIdx ((buildLines wf P.autoWrap P.width P.parts).map
        (lineHeightOf P.lineHeight)) P.height = none := by
      refine firstExceedIdx_eq_none _ _ ?_
      intro j hj
      rw [List.length_map] at hj
      have := hle j (by rw [htot]; exact hj)
      rw [hlines] at this
      exact this
    rw [hfe, hclip] at hrl hidx
    exact ⟨by rw [hrl, hlines], by rw [hidx]⟩

/-- Witness for C1: the 5×20-in-90 clip scenario renders 4 lines, and the
overflowed index list is exactly `[4]`. -/
theorem drawTextArea_clip_policy_witness :
    (drawTextArea unitWidth 200 c1Params).renderedLines = 4 ∧
    (drawTextArea unitWidth 200 c1Params).overflowedLineIndices = [4] := by
  have h := (drawTextArea_clip_policy unitWidth 200 c1Params rfl).1 4
    (by decide) (by decide) (by decide)
  exact ⟨h.2.1, h.2.2.trans (by decide)⟩

/-- Claim C4: with `hideOnOverflow`, any detected overflow (X, Y or both)
suppresses every text draw call of the box, while without overflow the
call draws exactly what it would with the flag off. -/
theorem drawTextArea_hideOnOverflow (wf : WidthFn) (ph : ℚ)
    (P : DrawTextAreaParams) (hh : P.hideOnOverflow = true) :
    ((drawTextArea wf ph P).overflowed = true →
      (drawTextArea wf ph P).drawCalls = []) ∧
    ((drawTextArea wf ph P).overflowed = false →
      (drawTextArea wf ph P).drawCalls
        = (drawTextArea wf ph { P with hideOnOverflow := false }).drawCalls) := by
  have hdc : (drawTextArea wf ph P).drawCalls
      = (if P.hideOnOverflow && (drawTextArea wf ph P).overflowed then []
         else emitArea wf P.color P.opacity P.x P.width P.align P.lineHeight
           (drawTextArea wf ph P).renderLines (drawTextArea wf ph P).startY) := rfl
  constructor
  · intro ho
    rw [hdc, hh, ho]
    rfl
  · intro ho
    rw [hdc, hh, ho]
    rfl

/-- Witness for C4: the overflowing hide-scenario emits no draw call; the
fitting hide-scenario draws exactly as with the flag off. -/
theorem drawTextArea_hideOnOverflow_witness :
    (drawTextArea unitWidth 200 c4Params).drawCalls = [] ∧
    (drawTextArea unitWidth 200 c4FitParams).drawCalls
      = (drawTextArea unitWidth 200
          { c4FitParams with hideOnOverflow := false }).drawCalls :=
  ⟨(drawTextArea_hideOnOverflow unitWidth 200 c4Params rfl).1 (by decide),
   (drawTextArea_hideOnOverflow unitWidth 200 c4FitParams rfl).2 (by decide)⟩

/-- Claim C6: the vertical start cursor is computed against the rendered
subset: `renderTextHeight` sums the rendered lines' heights and the start
cursor is box top, box top − (boxHeight − renderTextHeight)/2, or
box top − (boxHeight − renderTextHeight) for top/middle/bottom.  In the
clipped middle-aligned scenario the rendered height (80) differs from the
full unclipped height (100) and the cursor uses the rendered one. -/
theorem drawTextArea_vertical_start (wf : WidthFn) (ph : ℚ)
    (P : DrawTextAreaParams) :
    (drawTextArea wf ph P).renderTextHeight
      = ((drawTextArea wf ph P).renderLines.map (lineHeightOf P.lineHeight)).sum ∧
    (drawTextArea wf ph P).startY
      = (match P.verticalAlign with
         | VAlign.top => ph - P.y
         | VAlign.middle =>
            ph - P.y - (P.height - (drawTextArea wf ph P).renderTextHeight) / 2
         | VAlign.bottom =>
            ph - P.y - (P.height - (drawTextArea wf ph P).renderTextHeight)) ∧
    (drawTextArea unitWidth 100 c6Params).renderTextHeight = 80 ∧
    ((drawTextArea unitWidth 100 c6Params).lines.map
        (lineHeightOf c6Params.lineHeight)).sum = 100 ∧
    (drawTextArea unitWidth 100 c6Params).startY = 95 :=
  ⟨rfl, rfl, by decide, by decide, by decide⟩

/-- Claim C5: both operations select the overflow message by the fixed
precedence both-axes / X-only / Y-only / fits, and the concrete scenario
(lineWidth 250, maxWidth 200, lineHeight 20, maxHeight 30) reports
overflowed, X-overflow only, with message exactly
"Text overflows X (width)". -/
theorem overflow_message_precedence :
    (∀ (wf : WidthFn) (ph : ℚ) (P : DrawTextLineParams),
      ((drawTextLine wf ph P).overflowX = true ∧
          (drawTextLine wf ph P).overflowY = true →
        (drawTextLine wf ph P).message
          = "Text overflows both X (width) and Y (height)") ∧
      ((drawTextLine wf ph P).overflowX = true ∧
          (drawTextLine wf ph P).overflowY = false →
        (drawTextLine wf ph P).message = "Text overflows X (width)") ∧
      ((drawTextLine wf ph P).overflowX = false ∧
          (drawTextLine wf ph P).overflowY = true →
        (drawTextLine wf ph P).message = "Text overflows Y (height)") ∧
      ((drawTextLine wf ph P).overflowX = false ∧
          (drawTextLine wf ph P).overflowY = false →
        (drawTextLine wf ph P).message = "Text fits within the box")) ∧
    (∀ (wf : WidthFn) (ph : ℚ) (P : DrawTextAreaParams),
      ((drawTextArea wf ph P).overflowX = true ∧
          (drawTextArea wf ph P).overflowY = true →
        (drawTextArea wf ph P).message
          = "Text overflows both X (width) and Y (height)") ∧
      ((drawTextArea wf ph P).overflowX = true ∧
          (drawTextArea wf ph P).overflowY = false →
        (drawTextArea wf ph P).message = "Text overflows X (width)") ∧
      ((drawTextArea wf ph P).overflowX = false ∧
          (drawTextArea wf ph P).overflowY = true →
        (drawTextArea wf ph P).message = "Text overflows Y (height)") ∧
      ((drawTextArea wf ph P).overflowX = false ∧
          (drawTextArea wf ph P).overflowY = false →
        (drawTextArea wf ph P).message = "Text fits within the box")) ∧
    ((drawTextLine bigWidth 100 c5Params).lineWidth = 250 ∧
      c5Params.width = 200 ∧
      (drawTextLine bigWidth 100 c5Params).lineHeight = 20 ∧
      c5Params.height = 30 ∧
      (drawTextLine bigWidth 100 c5Params).overflowed = true ∧
      (drawTextLine bigWidth 100 c5Params).overflowX = true ∧
      (drawTextLine bigWidth 100 c5Params).overflowY = false ∧
      (drawTextLine bigWidth 100 c5Params).message
        = "Text overflows X (width)") := by
  refine ⟨?_, ?_, by decide⟩
  · intro wf ph P
    have hm : (drawTextLine wf ph P).message
        = overflowMessage (drawTextLine wf ph P).overflowX
            (drawTextLine wf ph P).overflowY := rfl
    refine ⟨?_, ?_, ?_, ?_⟩ <;> rintro ⟨hx, hy⟩ <;> rw [hm, hx, hy] <;> rfl
  · intro wf ph P
    have hm : (drawTextArea wf ph P).message
        = overflowMessage (drawTextArea wf ph P).overflowX
            (drawTextArea wf ph P).overflowY := rfl
    refine ⟨?_, ?_, ?_, ?_⟩ <;> rintro ⟨hx, hy⟩ <;> rw [hm, hx, hy] <;> rfl

/-- Witness for C5: the precedence theorem applied at the concrete
X-only-overflow scenario. -/
theorem overflow_message_precedence_witness :
    (drawTextLine bigWidth 100 c5Params).message = "Text overflows X (width)" :=
  (overflow_message_precedence.1 bigWidth 100 c5Params).2.1 ⟨by decide, by decide⟩

/-- Claim C8: a justify-mode line that has exactly one part after
grouping/tokenizing renders at left alignment: the gap width stays 0
(behind the `length > 1` guard) and the single emitted draw call starts
at the box's left edge. -/
theorem drawTextLine_justify_single (wf : WidthFn) (ph : ℚ)
    (P : DrawTextLineParams)
    (hj : P.align = LineAlign.justifyParts ∨ P.align = LineAlign.justifyWords)
    (hh : P.hideOnOverflow = false)
    (hlen : (drawTextLine wf ph P).lineParts.length = 1) :
    (drawTextLine wf ph P).gapWidth = 0 ∧
    (drawTextLine wf ph P).drawCalls.map DrawCall.x = [P.x] := by
  have hgap : (drawTextLine wf ph P).gapWidth
      = (if (P.align = LineAlign.justifyParts ∨ P.align = LineAlign.justifyWords)
            ∧ 1 < (drawTextLine wf ph P).lineParts.length then
          (P.width - (drawTextLine wf ph P).lineWidth)
            / (((drawTextLine wf ph P).lineParts.length : ℚ) - 1)
         else 0) := rfl
  have hgap0 : (drawTextLine wf ph P).gapWidth = 0 := by
    rw [hgap, if_neg]
    rw [hlen]
    simp
  refine ⟨hgap0, ?_⟩
  have hdc : (drawTextLine wf ph P).drawCalls
      = (if P.hideOnOverflow && (drawTextLine wf ph P).overflowed then []
         else emitLineParts wf P.color P.opacity
           (drawTextLine wf ph P).maxFontSize (drawTextLine wf ph P).yText
           (drawTextLine wf ph P).gapWidth
           (decide (P.align = LineAlign.justifyParts
              ∨ P.align = LineAlign.justifyWords))
           (drawTextLine wf ph P).lineParts
           (match P.align with
            | LineAlign.center => P.x + (P.width - (drawTextLine wf ph P).lineWidth) / 2
            | LineAlign.right => P.x + (P.width - (drawTextLine wf ph P).lineWidth)
            | _ => P.x)) := rfl
  obtain ⟨p, hp⟩ := List.length_eq_one.mp hlen
  rw [hdc, hh, hp]
  rcases hj with h | h <;> rw [h] <;> simp [emitLineParts]

/-- Witness for C8: a one-part `justifyParts` line draws once, at the box
left edge `x = 7`, with gap width 0. -/
theorem drawTextLine_justify_single_witness :
    (drawTextLine unitWidth 100 c8Params).gapWidth = 0 ∧
    (drawTextLine unitWidth 100 c8Params).drawCalls.map DrawCall.x
      = [c8Params.x] :=
  drawTextLine_justify_single unitWidth 100 c8Params (Or.inl rfl) rfl (by decide)

/-- Counterexample to C9 as stated: a non-empty fragment in a zero-width,
zero-height box under the clip policy is not classified as X-overflowing,
because the height cut removes every line before the X check (which only
examines rendered lines). -/
theorem drawTextArea_degenerate_counterexample :
    c9ClipParams.width = 0 ∧
    c9ClipParams.parts = [{ text := ['a'], font := 0, fontSize := some 12 }] ∧
    (drawTextArea charWidth 100 c9ClipParams).overflowX = false := by
  refine ⟨rfl, rfl, by decide⟩

/-- Claim C9 (amended): an empty fragment list produces zero lines and no
draw call under any configuration; and with zero or negative box width,
clipping disabled, and a (nonnegative, positive-on-non-empty-text)
measurement service, any non-empty fragment makes the report X-overflow. -/
theorem drawTextArea_degenerate (wf : WidthFn) (ph : ℚ)
    (P : DrawTextAreaParams) :
    (P.parts = [] → (drawTextArea wf ph P).lines = []
      ∧ (drawTextArea wf ph P).drawCalls = []) ∧
    (P.clipOverflow = false → P.width ≤ 0 →
      (∀ f t s, 0 ≤ wf f t s) → (∀ f t s, t ≠ [] → 0 < wf f t s) →
      (∃ p ∈ P.parts, p.text ≠ []) →
      (drawTextArea wf ph P).overflowX = true) := by
  constructor
  · intro hparts
    have hlines : (drawTextArea wf ph P).lines = [] := by
      show buildLines wf P.autoWrap P.width P.parts = []
      rw [hparts]
      rfl
    refine ⟨hlines, ?_⟩
    have hdc : (drawTextArea wf ph P).drawCalls
        = (if P.hideOnOverflow && (drawTextArea wf ph P).overflowed then []
           else emitArea wf P.color P.opacity P.x P.width P.align P.lineHeight
             (drawTextArea wf ph P).renderLines (drawTextArea wf ph P).startY) := rfl
    have hrl : (drawTextArea wf ph P).renderLines = [] := by
      have h : (drawTextArea wf ph P).renderLines
          = (match firstExceedIdx ((drawTextArea wf ph P).lines.map
                (lineHeightOf P.lineHeight)) P.height, P.clipOverflow with
             | some k, true => (drawTextArea wf ph P).lines.take k
             | _, _ => (drawTextArea wf ph P).lines) := rfl
      rw [h, hlines]
      rcases P.clipOverflow <;> rfl
    rw [hdc, hrl]
    split <;> rfl
  · rintro hclip hw h0 hpos ⟨p, hp, hpt⟩
    have hrl : (drawTextArea wf ph P).renderLines = (drawTextArea wf ph P).lines := by
      have h : (drawTextArea wf ph P).renderLines
          = (match firstExceedIdx ((drawTextArea wf ph P).lines.map
                (lineHeightOf P.lineHeight)) P.height, P.clipOverflow with
             | some k, true => (drawTextArea wf ph P).lines.take k
             | _, _ => (drawTextArea wf ph P).lines) := rfl
      rw [h, hclip]
      rcases firstExceedIdx ((drawTextArea wf ph P).lines.map
        (lineHeightOf P.lineHeight)) P.height with _ | k <;> rfl
    have hox : (drawTextArea wf ph P).overflowX
        = (drawTextArea wf ph P).renderLines.any
            (fun line => decide ((line.map (partWidth wf)).sum > P.width)) := rfl
    -- locate a non-empty word inside the built lines
    have hwne : concatTexts (splitPartToWords p) ≠ [] := by
      rw [concatTexts_splitPartToWords]
      exact hpt
    obtain ⟨w, hwmem, hwt⟩ := exists_text_ne_nil_of_concat hwne
    have hwflat : w ∈ (drawTextArea wf ph P).lines.flatten := by
      show w ∈ (buildLines wf P.autoWrap P.width P.parts).flatten
      rw [buildLines_flatten]
      exact List.mem_flatMap.mpr ⟨p, hp, hwmem⟩
    obtain ⟨line, hline, hwline⟩ := List.mem_flatten.mp hwflat
    have hsum : (line.map (partWidth wf)).sum > P.width := by
      have hle : partWidth wf w ≤ (line.map (partWidth wf)).sum := by
        refine List.single_le_sum ?_ _ (List.mem_map_of_mem _ hwline)
        intro q hq
        obtain ⟨v, -, rfl⟩ := List.mem_map.mp hq
        exact h0 _ _ _
      have hgt : 0 < partWidth wf w := hpos _ _ _ hwt
      linarith
    rw [hox, hrl]
    exact List.any_eq_true.mpr
      ⟨line, hline, by simpa using hsum⟩

/-- Witness to the amended C9: the empty list draws nothing, and the
zero-width report-mode box flags X overflow. -/
theorem drawTextArea_degenerate_witness :
    ((drawTextArea charWidth 100 c9EmptyParams).lines = [] ∧
      (drawTextArea charWidth 100 c9EmptyParams).drawCalls = []) ∧
    (drawTextArea charWidth 100 c9ReportParams).overflowX = true :=
  ⟨(drawTextArea_degenerate charWidth 100 c9EmptyParams).1 rfl,
   (drawTextArea_degenerate charWidth 100 c9ReportParams).2 rfl (by decide)
     (fun _ t _ => Nat.cast_nonneg t.length)
     (fun _ t _ ht => by
        show (0 : ℚ) < (t.length : ℚ)
        exact_mod_cast List.length_pos.mpr ht)
     (by decide)⟩

/-- Claim C10: `drawTextLine` invokes `onOverflow` whenever the callback is
supplied (even for a fitting box, with `overflowed = false` and the fits
message), whereas `drawTextArea` invokes it only when overflow is
detected. -/
theorem onOverflow_invocation :
    (∀ (wf : WidthFn) (ph : ℚ) (P : DrawTextLineParams),
      (drawTextLine wf ph P).callbackInvoked = P.hasOnOverflow) ∧
    (∀ (wf : WidthFn) (ph : ℚ) (P : DrawTextAreaParams),
      (drawTextArea wf ph P).callbackInvoked
        = (P.hasOnOverflow && (drawTextArea wf ph P).overflowed)) ∧
    ((drawTextLine unitWidth 100 c10LineParams).callbackInvoked = true ∧
      (drawTextLine unitWidth 100 c10LineParams).overflowed = false ∧
      (drawTextLine unitWidth 100 c10LineParams).message
        = "Text fits within the box") ∧
    (c10AreaParams.hasOnOverflow = true ∧
      (drawTextArea unitWidth 100 c10AreaParams).overflowed = false ∧
      (drawTextArea unitWidth 100 c10AreaParams).callbackInvoked = false) :=
  ⟨fun _ _ _ => rfl, fun _ _ _ => rfl, by decide, by decide⟩

end PdfLibUtils
